import Mathlib

/-!
Verification development for the expense-tracker-discord-bot repository.

The heart of the program is `parse_expense` in `src/expense_parser.py`
(lines 101-138), which matches the incoming message against the regex

  `^([₹$€]|INR|USD|EUR)?\s*(\d+(?:\.\d+)?)\s+([^\s]+)(?:\s+(.+))?$`

with `re.IGNORECASE`, after `message.strip()`.  On a match it builds a
record from the captured groups; on no match or exception it returns
`None`.  We embed this parser as a total Lean function over `List Char`.
The regex is deterministic on stripped input (every backtracking
alternative of the greedy quantifiers fails whenever the greedy-first
choice fails, as each quantified class is disjoint from the character
that must follow it), so a direct functional translation is faithful.

Modelling conventions:
* Python's `\d`, `\s` and `str.lower`/`re.IGNORECASE` are modelled over
  their ASCII fragments (`isDig`, `isPySpace`, `asciiLower`); the
  currency symbols `₹ $ €` are modelled exactly.
* `float(tok)` applied to the matched numeral token is modelled as the
  exact rational value of the token (`amountValOf`); no claim here
  depends on binary rounding.
* The parse-time date `datetime.datetime.now().strftime('%Y-%m-%d')`
  is passed in as an explicit `today` parameter.

`src/sheets_manager.py` `get_total_expenses` (lines 137-176) is embedded
over an in-memory list of rows, with the category-to-total dictionary
represented as a finitely-modified function `String → ℚ` with default 0.
-/

/-- ASCII fragment of Python's regex `\s` / `str.strip` whitespace:
space, tab, newline, carriage return, vertical tab, form feed. -/
def isPySpace (c : Char) : Bool :=
  c = ' ' || c = '\t' || c = '\n' || c = '\r' || c = '\x0b' || c = '\x0c'

/-- The regex character class `[^\s]` (ASCII whitespace fragment). -/
def nonPySpace (c : Char) : Bool := !isPySpace c

/-- ASCII fragment of Python's regex `\d`: the ten decimal digits. -/
def isDig (c : Char) : Bool :=
  c = '0' || c = '1' || c = '2' || c = '3' || c = '4' ||
  c = '5' || c = '6' || c = '7' || c = '8' || c = '9'

/-- ASCII fragment of Python's `str.lower` (used for `re.IGNORECASE`
matching of the currency codes and for `category.lower()`). -/
def asciiLower (c : Char) : Char :=
  if 'A' ≤ c ∧ c ≤ 'Z' then Char.ofNat (c.toNat + 32) else c

/-- Value of one decimal digit character. -/
def digitVal (c : Char) : ℕ := c.toNat - 48

/-- Value of a string of decimal digit characters, most significant first. -/
def digitsVal (ds : List Char) : ℕ := ds.foldl (fun a c => 10 * a + digitVal c) 0

/-- Exact rational value of the numeral `ds ++ "." ++ fds` (Python's
`float` conversion of the matched amount token, modelled exactly). -/
def amountValOf (ds fds : List Char) : ℚ :=
  (digitsVal ds : ℚ) + (digitsVal fds : ℚ) / (10 : ℚ) ^ fds.length

/-- The text of the matched amount token: integer digits, then a dot and
the fractional digits when the fractional part was matched. -/
def numeralChars (ds fds : List Char) : List Char :=
  ds ++ (if fds = [] then [] else '.' :: fds)

/-- `headNot p l` holds when `l` is empty or its first element fails `p`;
used to state where a greedy `takeWhile`/`dropWhile` scan must stop. -/
def headNot (p : Char → Bool) : List Char → Bool
  | [] => true
  | c :: _ => !p c

/-- Python's `str.strip()` (ASCII whitespace fragment). -/
def pyStrip (l : List Char) : List Char :=
  ((l.dropWhile isPySpace).reverse.dropWhile isPySpace).reverse

/-- `isSym c` holds when `c` is in the regex character class `[₹$€]`. -/
def isSym (c : Char) : Prop := c = '₹' ∨ c = '$' ∨ c = '€'

instance (c : Char) : Decidable (isSym c) := by unfold isSym; infer_instance

/-- The alternation `([₹$€]|INR|USD|EUR)?` of the regex, with
`re.IGNORECASE` on the codes, followed by Python's
`(currency or '').upper()` applied to the captured text.  Returns the
upper-cased marker (or `none`) and the rest of the input. -/
def parseCurrency (cs : List Char) : Option String × List Char :=
  match cs with
  | [] => (none, [])
  | c :: rest =>
    if isSym c then (some (String.mk [c]), rest)
    else
      match rest with
      | b :: c3 :: rest3 =>
        let l := [asciiLower c, asciiLower b, asciiLower c3]
        if l = ['i', 'n', 'r'] then (some "INR", rest3)
        else if l = ['u', 's', 'd'] then (some "USD", rest3)
        else if l = ['e', 'u', 'r'] then (some "EUR", rest3)
        else (none, cs)
      | _ => (none, cs)

/-- The optional fractional part `(?:\.\d+)?` of the amount: taken exactly
when a dot followed by at least one digit is present (when it is present
the greedy regex must take it, since otherwise the following `\s+`
fails on the dot).  Returns the fractional digits and the rest. -/
def parseFrac (l : List Char) : List Char × List Char :=
  match l with
  | c :: t =>
    if c = '.' ∧ t.takeWhile isDig ≠ [] then (t.takeWhile isDig, t.dropWhile isDig)
    else ([], l)
  | [] => ([], l)

/-- The trailing `(?:\s+(.+))?$` of the regex, applied after the category
token on input with no trailing whitespace (guaranteed by the initial
`strip`, so `$` can only match end-of-input): either nothing remains
(no description), or a nonempty whitespace run followed by a nonempty
newline-free remainder that becomes the description. -/
def matchTail (cs : List Char) : Option String :=
  if cs = [] then some ""
  else
    let ws := cs.takeWhile isPySpace
    let core := cs.dropWhile isPySpace
    if ws ≠ [] ∧ core ≠ [] ∧ core.all (fun c => c != '\n') then some (String.mk core)
    else none

/-- The record built by `parse_expense` on a successful match.  The
Python code stores `f"{(currency or '').upper()}{float(amount)}"` in a
single `'amount'` field; we keep the two ingredients — the upper-cased
currency marker and the amount's numeral token / exact value —
as separate fields. -/
structure Expense where
  date : String
  currency : String
  amountVal : ℚ
  amountTok : String
  category : String
  description : String
deriving Repr, DecidableEq

/-- `(currency or '')` for the optional captured marker. -/
def curStr : Option String → String
  | none => ""
  | some s => s

/-- The part of the regex after the optional currency marker and the
following `\s*`: the amount `(\d+(?:\.\d+)?)`, the separator `\s+`, the
category `([^\s]+)` and the tail `(?:\s+(.+))?$`, together with the
construction of the result record from the captured groups. -/
def afterAmount (today : String) (cur : Option String) (r2 : List Char) : Option Expense :=
  let ds := r2.takeWhile isDig
  let r3 := r2.dropWhile isDig
  if ds = [] then none
  else
    let fds := (parseFrac r3).1
    let r4 := (parseFrac r3).2
    let ws1 := r4.takeWhile isPySpace
    let r5 := r4.dropWhile isPySpace
    if ws1 = [] then none
    else
      let tok := r5.takeWhile nonPySpace
      let r6 := r5.dropWhile nonPySpace
      if tok = [] then none
      else
        match matchTail r6 with
        | none => none
        | some desc =>
          some { date := today
               , currency := curStr cur
               , amountVal := amountValOf ds fds
               , amountTok := String.mk (numeralChars ds fds)
               , category := String.mk (tok.map asciiLower)
               , description := desc }

/-- `parse_expense` from `src/expense_parser.py` (lines 101-138), with
the parse-time date passed explicitly: strip the message, match the
optional currency alternation, skip `\s*`, then match the rest of the
regex and build the record. -/
def parse_expense (today : String) (message : String) : Option Expense :=
  let m := pyStrip message.data
  afterAmount today (parseCurrency m).1 ((parseCurrency m).2.dropWhile isPySpace)

/-! ## Ledger store: `get_total_expenses` of `src/sheets_manager.py` -/

/-- One stored ledger row as read back by `get_all_records`: its
`Category` cell and the value `float(...)` of its `Amount` cell
(modelled as an exact rational). -/
structure Row where
  category : String
  amount : ℚ
deriving Repr, DecidableEq

/-- Python's `str.lower` (ASCII fragment), as used on the category
filter and the stored categories. -/
def pyLower (s : String) : String := String.mk (s.data.map asciiLower)

/-- `ExpenseSheetManager.get_total_expenses` (lines 137-176): the
optional `category` argument is tested with Python truthiness
(`if category:`), so `None` and `""` both mean "no filter"; the total is
summed over the (possibly filtered) records, while the per-category
breakdown dictionary is always built from the full record list.  The
dictionary is modelled as a function `String → ℚ` with default 0. -/
def get_total_expenses (records : List Row) (category : Option String) :
    ℚ × (String → ℚ) :=
  let filtered :=
    match category with
    | some c => if c != "" then records.filter (fun (r : Row) => pyLower r.category == pyLower c) else records
    | none => records
  let total := (filtered.map Row.amount).sum
  let breakdown :=
    records.foldl (fun (f : String → ℚ) (r : Row) => Function.update f r.category (f r.category + r.amount))
      (fun _ => (0 : ℚ))
  (total, breakdown)

/-- A string that Python's `float` accepts as a decimal numeral of the
shape matched by the amount group: one or more digits, optionally
followed by a dot and one or more digits.  (`fds = []` encodes the
absent fractional part.) -/
def validNumeral (s : String) : Prop :=
  ∃ ds fds, s.data = numeralChars ds fds ∧ ds ≠ [] ∧
    (∀ c ∈ ds, isDig c = true) ∧ (∀ c ∈ fds, isDig c = true)

example : parse_expense "2024-01-01" "$10 lunch" =
    some ⟨"2024-01-01", "$", amountValOf ['1', '0'] [], "10", "lunch", ""⟩ := rfl

example : parse_expense "2024-01-01" "€12.50 coffee Starbucks" =
    some ⟨"2024-01-01", "€", amountValOf ['1', '2'] ['5', '0'], "12.50", "coffee", "Starbucks"⟩ := rfl

example : parse_expense "2024-01-01" "inr150 travel cab fare" =
    some ⟨"2024-01-01", "INR", amountValOf ['1', '5', '0'] [], "150", "travel", "cab fare"⟩ := rfl

example : amountValOf ['1', '2'] ['5', '0'] = 25 / 2 := by
  have h1 : digitsVal ['1', '2'] = 12 := rfl
  have h2 : digitsVal ['5', '0'] = 50 := rfl
  simp [amountValOf, h1, h2]
  norm_num

example : parse_expense "2024-01-01" "just some text" = none := by decide

example : parse_expense "2024-01-01" "" = none := by decide

example : parse_expense "2024-01-01" "$ 10 lunch" =
    some ⟨"2024-01-01", "$", amountValOf ['1', '0'] [], "10", "lunch", ""⟩ := rfl

example : parse_expense "2024-01-01" "12.3.4 lunch" = none := by decide

example : parse_expense "2024-01-01" "0 lunch" =
    some ⟨"2024-01-01", "", amountValOf ['0'] [], "0", "lunch", ""⟩ := rfl

example : parse_expense "2024-01-01" "¥10 lunch" = none := by decide

/-! ## Scanning helper lemmas -/

theorem headNot_cons {p : Char → Bool} {c : Char} {l : List Char} :
    headNot p (c :: l) = !p c := rfl

theorem takeWhile_all_headNot {p : Char → Bool} {l1 l2 : List Char}
    (h1 : ∀ c ∈ l1, p c = true) (h2 : headNot p l2 = true) :
    (l1 ++ l2).takeWhile p = l1 := by
  induction l1 with
  | nil =>
    cases l2 with
    | nil => rfl
    | cons c t =>
      have hc : p c = false := by simpa [headNot] using h2
      simp [List.takeWhile_cons, hc]
  | cons a t ih =>
    have ha : p a = true := h1 a (by simp)
    simp only [List.cons_append, List.takeWhile_cons, ha, if_true]
    rw [ih (fun c hc => h1 c (by simp [hc]))]

theorem dropWhile_all_headNot {p : Char → Bool} {l1 l2 : List Char}
    (h1 : ∀ c ∈ l1, p c = true) (h2 : headNot p l2 = true) :
    (l1 ++ l2).dropWhile p = l2 := by
  induction l1 with
  | nil =>
    cases l2 with
    | nil => rfl
    | cons c t =>
      have hc : p c = false := by simpa [headNot] using h2
      simp [List.dropWhile_cons, hc]
  | cons a t ih =>
    have ha : p a = true := h1 a (by simp)
    simp only [List.cons_append, List.dropWhile_cons, ha, if_true]
    exact ih (fun c hc => h1 c (by simp [hc]))

theorem dropWhile_eq_self_of_headNot {p : Char → Bool} {l : List Char}
    (h : headNot p l = true) : l.dropWhile p = l := by
  cases l with
  | nil => rfl
  | cons c t =>
    have hc : p c = false := by simpa [headNot] using h
    simp [List.dropWhile_cons, hc]

theorem takeWhile_eq_nil_of_headNot {p : Char → Bool} {l : List Char}
    (h : headNot p l = true) : l.takeWhile p = [] := by
  cases l with
  | nil => rfl
  | cons c t =>
    have hc : p c = false := by simpa [headNot] using h
    simp [List.takeWhile_cons, hc]

theorem headNot_append_left {p : Char → Bool} {l1 l2 : List Char}
    (h0 : l1 ≠ []) (h : headNot p l1 = true) : headNot p (l1 ++ l2) = true := by
  cases l1 with
  | nil => exact absurd rfl h0
  | cons c t => simpa [headNot] using h

theorem headNot_of_all {p : Char → Bool} {l : List Char}
    (h : ∀ c ∈ l, p c = false) : headNot p l = true := by
  cases l with
  | nil => rfl
  | cons c t => simp [headNot, h c (by simp)]

theorem pyStrip_eq_self {l : List Char}
    (h1 : headNot isPySpace l = true) (h2 : headNot isPySpace l.reverse = true) :
    pyStrip l = l := by
  unfold pyStrip
  rw [dropWhile_eq_self_of_headNot h1, dropWhile_eq_self_of_headNot h2, List.reverse_reverse]

/-! ## Character-class facts -/

theorem isPySpace_cases {c : Char} (h : isPySpace c = true) :
    c = ' ' ∨ c = '\t' ∨ c = '\n' ∨ c = '\r' ∨ c = '\x0b' ∨ c = '\x0c' := by
  simpa [isPySpace, or_assoc] using h

theorem isDig_cases {c : Char} (h : isDig c = true) :
    c = '0' ∨ c = '1' ∨ c = '2' ∨ c = '3' ∨ c = '4' ∨
    c = '5' ∨ c = '6' ∨ c = '7' ∨ c = '8' ∨ c = '9' := by
  simpa [isDig, or_assoc] using h

theorem isDig_not_space {c : Char} (h : isDig c = true) : isPySpace c = false := by
  rcases isDig_cases h with rfl | rfl | rfl | rfl | rfl | rfl | rfl | rfl | rfl | rfl <;> decide

theorem isPySpace_not_dig {c : Char} (h : isPySpace c = true) : isDig c = false := by
  rcases isPySpace_cases h with rfl | rfl | rfl | rfl | rfl | rfl <;> decide

theorem isPySpace_ne_dot {c : Char} (h : isPySpace c = true) : c ≠ '.' := by
  rcases isPySpace_cases h with rfl | rfl | rfl | rfl | rfl | rfl <;> decide

theorem isSym_not_space {c : Char} (h : isSym c) : isPySpace c = false := by
  rcases h with rfl | rfl | rfl <;> decide

theorem isDig_not_sym {c : Char} (h : isDig c = true) : ¬ isSym c := by
  rcases isDig_cases h with rfl | rfl | rfl | rfl | rfl | rfl | rfl | rfl | rfl | rfl <;> decide

theorem isDig_lower_ne {c : Char} (h : isDig c = true) :
    asciiLower c ≠ 'i' ∧ asciiLower c ≠ 'u' ∧ asciiLower c ≠ 'e' := by
  rcases isDig_cases h with rfl | rfl | rfl | rfl | rfl | rfl | rfl | rfl | rfl | rfl <;>
    exact ⟨by decide, by decide, by decide⟩

theorem dot_not_dig : isDig '.' = false := by decide

/-! ## `parseCurrency`, `parseFrac` and `matchTail` computation lemmas -/

theorem parseCurrency_sym {c : Char} (h : isSym c) (rest : List Char) :
    parseCurrency (c :: rest) = (some (String.mk [c]), rest) := by
  simp [parseCurrency, h]

theorem parseCurrency_dig {c : Char} (h : isDig c = true) (rest : List Char) :
    parseCurrency (c :: rest) = (none, c :: rest) := by
  obtain ⟨h1, h2, h3⟩ := isDig_lower_ne h
  have hs : ¬ isSym c := isDig_not_sym h
  cases rest with
  | nil => simp [parseCurrency, hs]
  | cons b t =>
    cases t with
    | nil => simp [parseCurrency, hs]
    | cons c3 t3 => simp [parseCurrency, hs, h1, h2, h3]

theorem parseFrac_space {c : Char} (h : isPySpace c = true) (t : List Char) :
    parseFrac (c :: t) = ([], c :: t) := by
  simp [parseFrac, isPySpace_ne_dot h]

theorem parseFrac_dot {fds rest : List Char} (h0 : fds ≠ [])
    (h1 : ∀ c ∈ fds, isDig c = true) (h2 : headNot isDig rest = true) :
    parseFrac ('.' :: (fds ++ rest)) = (fds, rest) := by
  rw [parseFrac]
  rw [takeWhile_all_headNot h1 h2, dropWhile_all_headNot h1 h2]
  simp [h0]

theorem matchTail_build {ws2 r : List Char} (hws : ws2 ≠ [])
    (hw : ∀ c ∈ ws2, isPySpace c = true) (hr : r ≠ [])
    (hrh : headNot isPySpace r = true) (hnl : ∀ c ∈ r, c ≠ '\n') :
    matchTail (ws2 ++ r) = some (String.mk r) := by
  have hne : ws2 ++ r ≠ [] := by
    cases ws2 with
    | nil => exact absurd rfl hws
    | cons a t => simp
  rw [matchTail, if_neg hne]
  rw [takeWhile_all_headNot hw hrh, dropWhile_all_headNot hw hrh]
  have hall : r.all (fun c => c != '\n') = true := by
    rw [List.all_eq_true]
    intro c hc
    simpa using hnl c hc
  simp [hws, hr, hall]

/-! ## Success decomposition of the matcher -/

/-- Stepping lemma for `afterAmount`: once the amount scan and the
fractional-part scan are known to produce `ds`, `fds` and the remainder
`ws1 ++ (k ++ (ws2 ++ r))`, the matcher consumes `ws1` as the separator
`\s+`, `k` as the category `([^\s]+)`, and `ws2 ++ r` via the tail
`(?:\s+(.+))?$`, and builds the record from the captures. -/
theorem afterAmount_steps (d : String) (cur : Option String)
    {r2 r3 ds fds ws1 k ws2 r : List Char}
    (h1 : r2.takeWhile isDig = ds) (h2 : r2.dropWhile isDig = r3)
    (h3 : parseFrac r3 = (fds, ws1 ++ (k ++ (ws2 ++ r))))
    (hds : ds ≠ [])
    (hws1 : ws1 ≠ []) (hws1s : ∀ c ∈ ws1, isPySpace c = true)
    (hk : k ≠ []) (hks : ∀ c ∈ k, isPySpace c = false)
    (htail : (ws2 = [] ∧ r = []) ∨
      (ws2 ≠ [] ∧ (∀ c ∈ ws2, isPySpace c = true) ∧ r ≠ [] ∧
        headNot isPySpace r = true ∧ (∀ c ∈ r, c ≠ '\n'))) :
    afterAmount d cur r2 =
      some ⟨d, curStr cur, amountValOf ds fds, String.mk (numeralChars ds fds),
            String.mk (k.map asciiLower), String.mk r⟩ := by
  obtain ⟨k0, kt, rfl⟩ := List.exists_cons_of_ne_nil hk
  have hkh : headNot isPySpace ((k0 :: kt) ++ (ws2 ++ r)) = true := by
    simp only [List.cons_append, headNot_cons, hks k0 (by simp)]
    rfl
  have hkall : ∀ c ∈ k0 :: kt, nonPySpace c = true := fun c hc => by
    simp [nonPySpace, hks c hc]
  have htailhead : headNot nonPySpace (ws2 ++ r) = true := by
    rcases htail with ⟨hw2, hr⟩ | ⟨hw2, hw2s, _, _, _⟩
    · subst hw2; subst hr; rfl
    · obtain ⟨w2, t2, rfl⟩ := List.exists_cons_of_ne_nil hw2
      simp only [List.cons_append, headNot_cons, nonPySpace, hw2s w2 (by simp)]
      rfl
  simp only [afterAmount]
  rw [h1, if_neg hds, h2, h3]
  simp only
  rw [takeWhile_all_headNot hws1s hkh, if_neg hws1,
    dropWhile_all_headNot hws1s hkh,
    takeWhile_all_headNot hkall htailhead,
    dropWhile_all_headNot hkall htailhead,
    if_neg hk]
  rcases htail with ⟨hw2, hr⟩ | ⟨hw2, hw2s, hr, hrh, hnl⟩
  · subst hw2; subst hr
    rfl
  · rw [matchTail_build hw2 hw2s hr hrh hnl]


/-- Success lemma for `afterAmount` on an input that decomposes as
`<numeral> <ws1> <category> [<ws2> <description>]`. -/
theorem afterAmount_build (d : String) (cur : Option String)
    {ds fds ws1 k ws2 r : List Char}
    (hds : ds ≠ []) (hdsd : ∀ c ∈ ds, isDig c = true)
    (hfds : ∀ c ∈ fds, isDig c = true)
    (hws1 : ws1 ≠ []) (hws1s : ∀ c ∈ ws1, isPySpace c = true)
    (hk : k ≠ []) (hks : ∀ c ∈ k, isPySpace c = false)
    (htail : (ws2 = [] ∧ r = []) ∨
      (ws2 ≠ [] ∧ (∀ c ∈ ws2, isPySpace c = true) ∧ r ≠ [] ∧
        headNot isPySpace r = true ∧ (∀ c ∈ r, c ≠ '\n'))) :
    afterAmount d cur (numeralChars ds fds ++ (ws1 ++ (k ++ (ws2 ++ r)))) =
      some ⟨d, curStr cur, amountValOf ds fds, String.mk (numeralChars ds fds),
            String.mk (k.map asciiLower), String.mk r⟩ := by
  obtain ⟨w1, t1, hw1⟩ := List.exists_cons_of_ne_nil hws1
  have hw1sp : isPySpace w1 = true := hws1s w1 (by simp [hw1])
  have hXdig : headNot isDig (ws1 ++ (k ++ (ws2 ++ r))) = true := by
    rw [hw1]
    simp only [List.cons_append, headNot_cons, isPySpace_not_dig hw1sp]
    rfl
  by_cases hfe : fds = []
  · subst hfe
    have hnc : numeralChars ds [] = ds := by simp [numeralChars]
    have hfrac : parseFrac (ws1 ++ (k ++ (ws2 ++ r))) =
        ([], ws1 ++ (k ++ (ws2 ++ r))) := by
      rw [hw1, List.cons_append]
      rw [parseFrac_space hw1sp]
    have hst := afterAmount_steps d cur (takeWhile_all_headNot hdsd hXdig)
      (dropWhile_all_headNot hdsd hXdig) hfrac hds hws1 hws1s hk hks htail
    rw [hnc] at hst ⊢
    exact hst
  · have hnc : numeralChars ds fds = ds ++ ('.' :: fds) := by
      simp [numeralChars, hfe]
    have hdot : headNot isDig ('.' :: (fds ++ (ws1 ++ (k ++ (ws2 ++ r))))) = true := by
      simp only [headNot_cons, dot_not_dig]
      rfl
    have hfrac : parseFrac ('.' :: (fds ++ (ws1 ++ (k ++ (ws2 ++ r))))) =
        (fds, ws1 ++ (k ++ (ws2 ++ r))) := parseFrac_dot hfe hfds hXdig
    have hst := afterAmount_steps d cur (takeWhile_all_headNot hdsd hdot)
      (dropWhile_all_headNot hdsd hdot) hfrac hds hws1 hws1s hk hks htail
    rw [hnc, List.append_assoc, List.cons_append]
    rw [hnc] at hst
    exact hst

theorem reverse_ne_nil {l : List Char} (h : l ≠ []) : l.reverse ≠ [] := by
  simpa using h

theorem append_ne_nil_right {l1 l2 : List Char} (h : l2 ≠ []) : l1 ++ l2 ≠ [] := by
  intro hc
  exact h (List.append_eq_nil.mp hc).2

theorem headNot_rev_append (l1 : List Char) {l2 : List Char} {p : Char → Bool}
    (h2 : l2 ≠ []) (h : headNot p l2.reverse = true) :
    headNot p (l1 ++ l2).reverse = true := by
  rw [List.reverse_append]
  exact headNot_append_left (reverse_ne_nil h2) h

/-- Master success lemma for `parse_expense` on a message that decomposes
as `[<symbol>][<ws0>]<numeral> <ws1> <category> [<ws2> <description>]`
with no leading or trailing whitespace: the parse succeeds and the record
fields are exactly the decomposition's pieces.  (`cur = none` forces
`ws0 = []`, since on stripped input `\s*` can only be nonempty after a
currency marker.) -/
theorem parse_expense_build (d : String) (cur : Option Char)
    {ws0 ds fds ws1 k ws2 r : List Char}
    (hcur : ∀ c, cur = some c → isSym c)
    (hcur0 : cur = none → ws0 = [])
    (hws0 : ∀ c ∈ ws0, isPySpace c = true)
    (hds : ds ≠ []) (hdsd : ∀ c ∈ ds, isDig c = true)
    (hfds : ∀ c ∈ fds, isDig c = true)
    (hws1 : ws1 ≠ []) (hws1s : ∀ c ∈ ws1, isPySpace c = true)
    (hk : k ≠ []) (hks : ∀ c ∈ k, isPySpace c = false)
    (htail : (ws2 = [] ∧ r = []) ∨
      (ws2 ≠ [] ∧ (∀ c ∈ ws2, isPySpace c = true) ∧ r ≠ [] ∧
        headNot isPySpace r = true ∧ headNot isPySpace r.reverse = true ∧
        (∀ c ∈ r, c ≠ '\n'))) :
    parse_expense d (String.mk
        (cur.toList ++ (ws0 ++ (numeralChars ds fds ++ (ws1 ++ (k ++ (ws2 ++ r))))))) =
      some ⟨d, curStr (cur.map fun c => String.mk [c]), amountValOf ds fds,
            String.mk (numeralChars ds fds), String.mk (k.map asciiLower),
            String.mk r⟩ := by
  obtain ⟨d0, dt, hd0⟩ := List.exists_cons_of_ne_nil hds
  have hd0dig : isDig d0 = true := hdsd d0 (by simp [hd0])
  have hform : numeralChars ds fds ++ (ws1 ++ (k ++ (ws2 ++ r))) =
      d0 :: ((dt ++ (if fds = [] then [] else '.' :: fds)) ++ (ws1 ++ (k ++ (ws2 ++ r)))) := by
    simp [numeralChars, hd0]
  have hncHead : headNot isPySpace
      (numeralChars ds fds ++ (ws1 ++ (k ++ (ws2 ++ r)))) = true := by
    rw [hform, headNot_cons, isDig_not_space hd0dig]
    rfl
  -- the reversed message starts with a non-whitespace character
  have hkrev : headNot isPySpace k.reverse = true :=
    headNot_of_all (fun c hc => hks c (List.mem_reverse.mp hc))
  have hCrev : headNot isPySpace (k ++ (ws2 ++ r)).reverse = true := by
    rcases htail with ⟨hw2, hr⟩ | ⟨hw2, hw2s, hr, hrh, hrrev, hnl⟩
    · rw [hw2, hr]
      simpa using hkrev
    · have h1 : headNot isPySpace (ws2 ++ r).reverse = true :=
        headNot_rev_append ws2 hr hrrev
      exact headNot_rev_append k (append_ne_nil_right hr) h1
  have hCne : k ++ (ws2 ++ r) ≠ [] := by
    obtain ⟨k0, kt, rfl⟩ := List.exists_cons_of_ne_nil hk
    simp
  have hrev2 : headNot isPySpace
      (numeralChars ds fds ++ (ws1 ++ (k ++ (ws2 ++ r)))).reverse = true :=
    headNot_rev_append _ (append_ne_nil_right hCne) (headNot_rev_append ws1 hCne hCrev)
  have hrev3 : headNot isPySpace
      (ws0 ++ (numeralChars ds fds ++ (ws1 ++ (k ++ (ws2 ++ r))))).reverse = true :=
    headNot_rev_append ws0 (append_ne_nil_right (append_ne_nil_right hCne)) hrev2
  have hLrev : headNot isPySpace
      (cur.toList ++ (ws0 ++ (numeralChars ds fds ++ (ws1 ++ (k ++ (ws2 ++ r)))))).reverse
        = true :=
    headNot_rev_append cur.toList
      (append_ne_nil_right (append_ne_nil_right (append_ne_nil_right hCne))) hrev3
  cases cur with
  | some c =>
    have hsym : isSym c := hcur c rfl
    have hLcons : (some c).toList ++ (ws0 ++ (numeralChars ds fds ++ (ws1 ++ (k ++ (ws2 ++ r))))) =
        c :: (ws0 ++ (numeralChars ds fds ++ (ws1 ++ (k ++ (ws2 ++ r))))) := by
      simp [Option.toList]
    have hLhead : headNot isPySpace
        ((some c).toList ++ (ws0 ++ (numeralChars ds fds ++ (ws1 ++ (k ++ (ws2 ++ r)))))) =
          true := by
      rw [hLcons, headNot_cons, isSym_not_space hsym]
      rfl
    have hstrip := pyStrip_eq_self hLhead hLrev
    have hpcL : parseCurrency (pyStrip
        ((some c).toList ++ (ws0 ++ (numeralChars ds fds ++ (ws1 ++ (k ++ (ws2 ++ r))))))) =
        (some (String.mk [c]), ws0 ++ (numeralChars ds fds ++ (ws1 ++ (k ++ (ws2 ++ r))))) := by
      rw [hstrip, hLcons]
      exact parseCurrency_sym hsym _
    simp only [parse_expense]
    rw [hpcL]
    show afterAmount d (some (String.mk [c]))
      (List.dropWhile isPySpace (ws0 ++ (numeralChars ds fds ++ (ws1 ++ (k ++ (ws2 ++ r)))))) = _
    rw [dropWhile_all_headNot hws0 hncHead]
    exact afterAmount_build d _ hds hdsd hfds hws1 hws1s hk hks
      (htail.imp id (fun ⟨a, b, c', d', _, f⟩ => ⟨a, b, c', d', f⟩))
  | none =>
    have hws0nil : ws0 = [] := hcur0 rfl
    subst hws0nil
    have hLnil : (none : Option Char).toList ++ ([] ++ (numeralChars ds fds ++ (ws1 ++ (k ++ (ws2 ++ r))))) =
        numeralChars ds fds ++ (ws1 ++ (k ++ (ws2 ++ r))) := by
      simp [Option.toList]
    have hLhead : headNot isPySpace
        ((none : Option Char).toList ++ ([] ++ (numeralChars ds fds ++
          (ws1 ++ (k ++ (ws2 ++ r)))))) = true := by
      rw [hLnil]
      exact hncHead
    have hstrip := pyStrip_eq_self hLhead hLrev
    have hpcL : parseCurrency (pyStrip
        ((none : Option Char).toList ++ ([] ++ (numeralChars ds fds ++ (ws1 ++ (k ++ (ws2 ++ r))))))) =
        (none, numeralChars ds fds ++ (ws1 ++ (k ++ (ws2 ++ r)))) := by
      rw [hstrip, hLnil, hform]
      exact parseCurrency_dig hd0dig _
    simp only [parse_expense]
    rw [hpcL]
    show afterAmount d none
      (List.dropWhile isPySpace (numeralChars ds fds ++ (ws1 ++ (k ++ (ws2 ++ r))))) = _
    rw [dropWhile_eq_self_of_headNot hncHead]
    exact afterAmount_build d _ hds hdsd hfds hws1 hws1s hk hks
      (htail.imp id (fun ⟨a, b, c', d', _, f⟩ => ⟨a, b, c', d', f⟩))

/-! ## Failure and inversion lemmas -/

theorem mem_pyStrip {c : Char} {l : List Char} (h : c ∈ pyStrip l) : c ∈ l := by
  unfold pyStrip at h
  rw [List.mem_reverse] at h
  have h2 := (List.dropWhile_sublist _).subset h
  rw [List.mem_reverse] at h2
  exact (List.dropWhile_sublist _).subset h2

theorem mem_parseCurrency_snd {c : Char} {cs : List Char}
    (h : c ∈ (parseCurrency cs).2) : c ∈ cs := by
  cases cs with
  | nil => simp [parseCurrency] at h
  | cons c0 rest =>
    simp only [parseCurrency] at h
    by_cases hs : isSym c0
    · rw [if_pos hs] at h
      exact List.mem_cons_of_mem c0 h
    · rw [if_neg hs] at h
      cases rest with
      | nil => exact h
      | cons b t =>
        cases t with
        | nil => exact h
        | cons c3 t3 =>
          simp only at h
          split_ifs at h
          · exact List.mem_cons_of_mem _ (List.mem_cons_of_mem _ (List.mem_cons_of_mem _ h))
          · exact List.mem_cons_of_mem _ (List.mem_cons_of_mem _ (List.mem_cons_of_mem _ h))
          · exact List.mem_cons_of_mem _ (List.mem_cons_of_mem _ (List.mem_cons_of_mem _ h))
          · exact h

theorem afterAmount_none_of_no_digit {d : String} {cur : Option String}
    {r2 : List Char} (h : r2.takeWhile isDig = []) :
    afterAmount d cur r2 = none := by
  simp only [afterAmount]
  rw [h, if_pos rfl]

theorem parseFrac_fst_digits (l : List Char) :
    ∀ c ∈ (parseFrac l).1, isDig c = true := by
  intro c hc
  cases l with
  | nil => simp [parseFrac] at hc
  | cons c0 t =>
    simp only [parseFrac] at hc
    split_ifs at hc
    · exact List.mem_takeWhile_imp hc
    · simp at hc

theorem amountValOf_nonneg (ds fds : List Char) : 0 ≤ amountValOf ds fds := by
  unfold amountValOf
  have h1 : (0 : ℚ) ≤ (digitsVal ds : ℚ) := Nat.cast_nonneg _
  have h2 : (0 : ℚ) ≤ (digitsVal fds : ℚ) / (10 : ℚ) ^ fds.length :=
    div_nonneg (Nat.cast_nonneg _) (by positivity)
  linarith

/-- Inversion: whatever `afterAmount` accepts carries an amount captured
as a nonempty digit run with an optional digit-run fractional part. -/
theorem afterAmount_some_inv {d : String} {cur : Option String}
    {r2 : List Char} {e : Expense} (h : afterAmount d cur r2 = some e) :
    ∃ ds fds, e.amountVal = amountValOf ds fds ∧
      e.amountTok = String.mk (numeralChars ds fds) ∧
      ds ≠ [] ∧ (∀ c ∈ ds, isDig c = true) ∧ (∀ c ∈ fds, isDig c = true) := by
  simp only [afterAmount] at h
  by_cases h1 : r2.takeWhile isDig = []
  · rw [if_pos h1] at h
    exact absurd h (by simp)
  · rw [if_neg h1] at h
    by_cases h2 : ((parseFrac (r2.dropWhile isDig)).2.takeWhile isPySpace) = []
    · rw [if_pos h2] at h
      exact absurd h (by simp)
    · rw [if_neg h2] at h
      by_cases h3 : (((parseFrac (r2.dropWhile isDig)).2.dropWhile isPySpace).takeWhile nonPySpace) = []
      · rw [if_pos h3] at h
        exact absurd h (by simp)
      · rw [if_neg h3] at h
        cases hmt : matchTail (((parseFrac (r2.dropWhile isDig)).2.dropWhile isPySpace).dropWhile nonPySpace) with
        | none =>
          rw [hmt] at h
          exact absurd h (by simp)
        | some desc =>
          rw [hmt] at h
          have he := Option.some.inj h
          subst he
          exact ⟨r2.takeWhile isDig, (parseFrac (r2.dropWhile isDig)).1, rfl, rfl, h1,
            fun c hc => List.mem_takeWhile_imp hc, parseFrac_fst_digits _⟩

/-! ## Breakdown-dictionary lemma for `get_total_expenses` -/

theorem breakdown_foldl (l : List Row) (b : String → ℚ) (c : String) :
    (l.foldl (fun (f : String → ℚ) (r : Row) =>
        Function.update f r.category (f r.category + r.amount)) b) c
      = b c + ((l.filter (fun r => r.category == c)).map Row.amount).sum := by
  induction l generalizing b with
  | nil => simp
  | cons x t ih =>
    simp only [List.foldl_cons]
    rw [ih]
    by_cases hx : x.category = c
    · rw [List.filter_cons_of_pos (by simpa using hx)]
      simp only [List.map_cons, List.sum_cons]
      rw [Function.update_apply, if_pos hx.symm, hx]
      ring
    · rw [List.filter_cons_of_neg (by simpa using hx)]
      rw [Function.update_apply, if_neg (fun hc => hx hc.symm)]

/-! ## Claim theorems -/

/-- C1 (counterexample to the claim as stated): the claim says that a
successful parse always carries a strictly positive amount and that an
amount token denoting a value `≤ 0` makes the parse fail; but the code
has no positivity check, and `"0 lunch"` parses successfully with
amount `0`. -/
theorem C1_zero_amount_counterexample :
    (parse_expense "2024-01-01" "0 lunch").map Expense.amountVal = some 0 := by
  have h : parse_expense "2024-01-01" "0 lunch" =
      some ⟨"2024-01-01", "", amountValOf ['0'] [], "0", "lunch", ""⟩ := rfl
  rw [h]
  show some (amountValOf ['0'] []) = some 0
  have hv : amountValOf ['0'] [] = 0 := by
    have h0 : digitsVal ['0'] = 0 := rfl
    have h1 : digitsVal ([] : List Char) = 0 := rfl
    simp [amountValOf, h0, h1]
  rw [hv]

/-- C1 (amended): every successful parse carries a nonnegative amount,
and syntactically invalid amount tokens such as `"12.3.4"`, as well as
negative ones such as `"-5"`, make the parse fail; an amount of `0`
however is accepted. -/
theorem C1_amount_nonneg_amended (d s : String) (e : Expense) :
    (parse_expense d s = some e → 0 ≤ e.amountVal) ∧
    parse_expense d "12.3.4 lunch" = none ∧ parse_expense d "-5 lunch" = none := by
  refine ⟨fun h => ?_, rfl, rfl⟩
  simp only [parse_expense] at h
  obtain ⟨ds, fds, hv, _, _, _, _⟩ := afterAmount_some_inv h
  rw [hv]
  exact amountValOf_nonneg ds fds

theorem C1_amount_nonneg_amended_witness :
    (0 : ℚ) ≤ (Expense.mk "2024-01-01" "" (amountValOf ['1', '0'] []) "10" "lunch" "").amountVal ∧
    parse_expense "2024-01-01" "12.3.4 lunch" = none ∧
    parse_expense "2024-01-01" "-5 lunch" = none := by
  have h := C1_amount_nonneg_amended "2024-01-01" "10 lunch"
    ⟨"2024-01-01", "", amountValOf ['1', '0'] [], "10", "lunch", ""⟩
  exact ⟨h.1 rfl, h.2.1, h.2.2⟩

/-- C2 (the code contradicts the claim and its own docstring): the
docstring of `parse_expense` announces support for `¥`, `GBP` and `JPY`
(and the spec also lists `£`), but the regex alternation only contains
`[₹$€]|INR|USD|EUR`, so marker inputs outside that set fail to parse
while the listed ones succeed. -/
theorem C2_currency_set_code_bug (d : String) :
    parse_expense d "¥10 lunch" = none ∧
    parse_expense d "£10 lunch" = none ∧
    parse_expense d "GBP10 lunch" = none ∧
    parse_expense d "JPY10 lunch" = none ∧
    (parse_expense d "₹10 lunch").isSome = true ∧
    (parse_expense d "$10 lunch").isSome = true ∧
    (parse_expense d "€10 lunch").isSome = true ∧
    (parse_expense d "INR10 lunch").isSome = true ∧
    (parse_expense d "usd10 lunch").isSome = true ∧
    (parse_expense d "EUR10 lunch").isSome = true :=
  ⟨rfl, rfl, rfl, rfl, rfl, rfl, rfl, rfl, rfl, rfl⟩

/-- C3: with a non-empty category filter, the total returned by
`get_total_expenses` sums exactly the records whose category matches the
filter case-insensitively, while the returned per-category breakdown
maps every category to the summed amounts over the full unfiltered
record list — identical to the breakdown returned with no filter. -/
theorem C3_sum_by_category (records : List Row) (f c : String) (hf : f ≠ "") :
    (get_total_expenses records (some f)).1 =
      ((records.filter (fun r => pyLower r.category == pyLower f)).map Row.amount).sum ∧
    (get_total_expenses records (some f)).2 c =
      ((records.filter (fun r => r.category == c)).map Row.amount).sum ∧
    (get_total_expenses records (some f)).2 c = (get_total_expenses records none).2 c := by
  have hft : (f != "") = true := by simpa using hf
  refine ⟨?_, ?_, ?_⟩
  · simp only [get_total_expenses, hft, if_true]
  · simp only [get_total_expenses]
    rw [breakdown_foldl]
    simp
  · rfl

theorem C3_sum_by_category_witness :
    (get_total_expenses [⟨"Food", 5⟩, ⟨"gas", 3⟩, ⟨"food", 2⟩] (some "FOOD")).1 =
      (([⟨"Food", 5⟩, ⟨"gas", 3⟩, ⟨"food", 2⟩].filter
        (fun r => pyLower r.category == pyLower "FOOD")).map Row.amount).sum ∧
    (get_total_expenses [⟨"Food", 5⟩, ⟨"gas", 3⟩, ⟨"food", 2⟩] (some "FOOD")).2 "gas" =
      (([⟨"Food", 5⟩, ⟨"gas", 3⟩, ⟨"food", 2⟩].filter
        (fun r => r.category == "gas")).map Row.amount).sum ∧
    (get_total_expenses [⟨"Food", 5⟩, ⟨"gas", 3⟩, ⟨"food", 2⟩] (some "FOOD")).2 "gas" =
      (get_total_expenses [⟨"Food", 5⟩, ⟨"gas", 3⟩, ⟨"food", 2⟩] none).2 "gas" :=
  C3_sum_by_category [⟨"Food", 5⟩, ⟨"gas", 3⟩, ⟨"food", 2⟩] "FOOD" "gas" (by decide)

/-- C4: the category is always the first whitespace-delimited token after
the amount, with no special-casing of connective words: for any
non-whitespace token `k` — including `"at"` or `"for"` — the input
`"$10 <k> <r>"` parses with category `k` (lower-cased) and description
`r`; connective words are never skipped. -/
theorem C4_first_token_category (d : String) (k r : List Char)
    (hk : k ≠ []) (hks : ∀ c ∈ k, isPySpace c = false)
    (hr : r ≠ []) (hrs : ∀ c ∈ r, isPySpace c = false) :
    parse_expense d (String.mk ('$' :: '1' :: '0' :: ' ' :: (k ++ (' ' :: r)))) =
      some ⟨d, "$", amountValOf ['1', '0'] [], "10",
            String.mk (k.map asciiLower), String.mk r⟩ := by
  have hnl : ∀ c ∈ r, c ≠ '\n' := by
    intro c hc heq
    subst heq
    exact absurd (hrs _ hc) (by decide)
  have h := @parse_expense_build d (some '$') [] ['1', '0'] [] [' '] k [' '] r
    (by intro c hc; injection hc with h0; subst h0; decide)
    (fun h0 => rfl) (by simp) (by decide) (by decide) (by simp)
    (by decide) (by decide) hk hks
    (Or.inr ⟨by decide, by decide, hr, headNot_of_all hrs,
      headNot_of_all (fun c hc => hrs c (List.mem_reverse.mp hc)), hnl⟩)
  exact h

theorem C4_first_token_category_witness :
    parse_expense "2024-01-01" "$10 at Subway" =
      some ⟨"2024-01-01", "$", amountValOf ['1', '0'] [], "10", "at", "Subway"⟩ :=
  C4_first_token_category "2024-01-01" ['a', 't'] "Subway".data
    (by decide) (by decide) (by decide) (by decide)

/-- C5: the description is everything after the category token and its
separating whitespace run, verbatim (case and internal whitespace
preserved), and is the empty string when nothing follows the category;
in particular `"$10 food <ws><r>"` yields description exactly `r`. -/
theorem C5_description_verbatim (d : String) (ws2 r : List Char)
    (hws2 : ws2 ≠ []) (hws2s : ∀ c ∈ ws2, isPySpace c = true)
    (hr : r ≠ []) (hrh : headNot isPySpace r = true)
    (hrl : headNot isPySpace r.reverse = true) (hnl : ∀ c ∈ r, c ≠ '\n') :
    (parse_expense d (String.mk ("$10 food".data ++ (ws2 ++ r)))).map Expense.description =
      some (String.mk r) ∧
    (parse_expense d "$10 food").map Expense.description = some "" := by
  constructor
  · have h := @parse_expense_build d (some '$') [] ['1', '0'] [] [' '] "food".data ws2 r
      (by intro c hc; injection hc with h0; subst h0; decide)
      (fun h0 => rfl) (by simp) (by decide) (by decide) (by simp)
      (by decide) (by decide) (by decide) (by decide)
      (Or.inr ⟨hws2, hws2s, hr, hrh, hrl, hnl⟩)
    have h2 : parse_expense d (String.mk ("$10 food".data ++ (ws2 ++ r))) =
        some ⟨d, "$", amountValOf ['1', '0'] [], "10", "food", String.mk r⟩ := h
    rw [h2]
    rfl
  · rfl

theorem C5_description_verbatim_witness :
    (parse_expense "2024-01-01" "$10 food buy milk and eggs").map Expense.description =
      some "buy milk and eggs" ∧
    (parse_expense "2024-01-01" "$10 food").map Expense.description = some "" :=
  C5_description_verbatim "2024-01-01" [' '] "buy milk and eggs".data
    (by decide) (by decide) (by decide) (by decide) (by decide) (by decide)

/-- C6: for every positive decimal numeral and every single alphanumeric
category token `k`, parsing `"<numeral> <k>"` succeeds and the resulting
category is the lower-casing of `k`. -/
theorem C6_category_lowercase (d : String) (ds fds k : List Char)
    (hds : ds ≠ []) (hdsd : ∀ c ∈ ds, isDig c = true)
    (hfds : ∀ c ∈ fds, isDig c = true)
    (hpos : 0 < amountValOf ds fds)
    (hk : k ≠ []) (hka : ∀ c ∈ k, c.isAlphanum = true) :
    (parse_expense d (String.mk (numeralChars ds fds ++ (' ' :: k)))).map Expense.category =
      some (String.mk (k.map asciiLower)) := by
  have hks : ∀ c ∈ k, isPySpace c = false := by
    intro c hc
    cases hsp : isPySpace c with
    | false => rfl
    | true =>
      rcases isPySpace_cases hsp with rfl | rfl | rfl | rfl | rfl | rfl <;>
        exact absurd (hka _ hc) (by decide)
  have h := @parse_expense_build d none [] ds fds [' '] k [] []
    (fun c hc => absurd hc (by simp))
    (fun _ => rfl) (by simp) hds hdsd hfds (by decide) (by decide) hk hks
    (Or.inl ⟨rfl, rfl⟩)
  simp only [Option.toList, List.nil_append, List.append_nil, List.singleton_append] at h
  rw [h]
  rfl

theorem C6_category_lowercase_witness :
    (parse_expense "2024-01-01" "12.50 Groceries").map Expense.category =
      some "groceries" := by
  have hv : amountValOf ['1', '2'] ['5', '0'] = 25 / 2 := by
    have h1 : digitsVal ['1', '2'] = 12 := rfl
    have h2 : digitsVal ['5', '0'] = 50 := rfl
    simp [amountValOf, h1, h2]
    norm_num
  have h := C6_category_lowercase "2024-01-01" ['1', '2'] ['5', '0'] "Groceries".data
    (by decide) (by decide) (by decide) (by rw [hv]; norm_num) (by decide) (by decide)
  exact h

/-- C7: any input containing no digit character — including the empty
string and whitespace-only strings — fails to parse. -/
theorem C7_no_digit_fails (d s : String) (h : ∀ c ∈ s.data, isDig c = false) :
    parse_expense d s = none := by
  have hr2 : ∀ c ∈ ((parseCurrency (pyStrip s.data)).2.dropWhile isPySpace),
      isDig c = false :=
    fun c hc => h c (mem_pyStrip (mem_parseCurrency_snd
      ((List.dropWhile_sublist _).subset hc)))
  simp only [parse_expense]
  exact afterAmount_none_of_no_digit (takeWhile_eq_nil_of_headNot (headNot_of_all hr2))

theorem C7_no_digit_fails_witness :
    parse_expense "2024-01-01" "just some text" = none ∧
    parse_expense "2024-01-01" "" = none ∧
    parse_expense "2024-01-01" "   " = none :=
  ⟨C7_no_digit_fails "2024-01-01" "just some text" (by decide),
   C7_no_digit_fails "2024-01-01" "" (by decide),
   C7_no_digit_fails "2024-01-01" "   " (by decide)⟩

/-- C8: the parser is deterministic — with the parse-time date held
fixed, two invocations on the same input yield the same result. -/
theorem C8_deterministic (d s : String) (r1 r2 : Option Expense)
    (h1 : parse_expense d s = r1) (h2 : parse_expense d s = r2) : r1 = r2 :=
  h1.symm.trans h2

theorem C8_deterministic_witness :
    parse_expense "2024-01-01" "$10 lunch" = parse_expense "2024-01-01" "$10 lunch" :=
  C8_deterministic "2024-01-01" "$10 lunch" _ _ rfl rfl

/-- C9: the parser is total over its result type: every input yields
either a failure (`none`) or a complete record whose amount token is a
well-formed decimal numeral — precisely the strings Python's `float`
accepts without raising, so the conversion inside the handler can never
throw. -/
theorem C9_total_and_float_safe (d s : String) :
    parse_expense d s = none ∨
      ∃ e, parse_expense d s = some e ∧ validNumeral e.amountTok := by
  cases hp : parse_expense d s with
  | none => exact Or.inl rfl
  | some e =>
    right
    refine ⟨e, rfl, ?_⟩
    simp only [parse_expense] at hp
    obtain ⟨ds, fds, _, htok, hne, hd, hf⟩ := afterAmount_some_inv hp
    exact ⟨ds, fds, by rw [htok], hne, hd, hf⟩

/-- C10: a recognized currency symbol separated from the amount by a
space is accepted exactly like an adjacent one: `"<sym> <numeral> <k>"`
and `"<sym><numeral> <k>"` parse to identical records. -/
theorem C10_spaced_currency (d : String) (c : Char) (hc : isSym c)
    (ds fds k : List Char) (hds : ds ≠ []) (hdsd : ∀ x ∈ ds, isDig x = true)
    (hfds : ∀ x ∈ fds, isDig x = true) (hpos : 0 < amountValOf ds fds)
    (hk : k ≠ []) (hks : ∀ x ∈ k, isPySpace x = false) :
    parse_expense d (String.mk (c :: ' ' :: (numeralChars ds fds ++ (' ' :: k)))) =
      parse_expense d (String.mk (c :: (numeralChars ds fds ++ (' ' :: k)))) := by
  have h1 := @parse_expense_build d (some c) [' '] ds fds [' '] k [] []
    (fun c' hc' => by injection hc' with h0; subst h0; exact hc)
    (fun h0 => by simp at h0) (by decide) hds hdsd hfds (by decide) (by decide) hk hks
    (Or.inl ⟨rfl, rfl⟩)
  have h2 := @parse_expense_build d (some c) [] ds fds [' '] k [] []
    (fun c' hc' => by injection hc' with h0; subst h0; exact hc)
    (fun h0 => rfl) (by simp) hds hdsd hfds (by decide) (by decide) hk hks
    (Or.inl ⟨rfl, rfl⟩)
  simp only [Option.toList, List.nil_append, List.append_nil,
    List.singleton_append] at h1 h2
  rw [h1, h2]

theorem C10_spaced_currency_witness :
    parse_expense "2024-01-01" "$ 10 lunch" = parse_expense "2024-01-01" "$10 lunch" := by
  have hv : amountValOf ['1', '0'] [] = 10 := by
    have h1 : digitsVal ['1', '0'] = 10 := rfl
    have h2 : digitsVal ([] : List Char) = 0 := rfl
    simp [amountValOf, h1, h2]
  have h := C10_spaced_currency "2024-01-01" '$' (by decide) ['1', '0'] [] "lunch".data
    (by decide) (by decide) (by decide) (by rw [hv]; norm_num) (by decide) (by decide)
  exact h
